import Mathlib

/-!
Verification of the core logic of the AI-Image-Cleanup application
(`src/App.tsx`): the RGB→HSL color conversion (`rgbToHsl`), the magenta
chroma-key pass (`makeMagentaTransparent`'s pixel loop), and the linear
edit history with branch truncation (React state `history`/`historyIndex`
mutated by `handleGenerate`, `handleReset`, `handleUndo`, `handleRedo`,
`processFile`).

JavaScript numbers are modelled by exact rationals (`ℚ`); image snapshots
(data-URL strings) are modelled by an opaque type parameter; the pixel
buffer (`ImageData.data`, a flat RGBA byte array) is modelled as a
`List Pixel` of four-channel records.
-/

namespace ImageCleanup

/-! ## Edit history state machine

The React component keeps `history : string[]` and `historyIndex : number`
(initially `[]` and `-1`).  We embed the pair as a record over an opaque
snapshot type. -/

/-- The pair of React state variables `history` and `historyIndex`. -/
structure HistoryState (α : Type) where
  history : List α
  historyIndex : Int
deriving DecidableEq, Repr

/-- JavaScript array indexing `l[i]`: `undefined` (here `none`) when `i` is
negative or past the end. -/
def getAt {α : Type} (l : List α) (i : Int) : Option α :=
  if 0 ≤ i then l[i.toNat]? else none

/-- `currentImageSrc = history[historyIndex] ?? null` (App.tsx line 84). -/
def current {α : Type} (st : HistoryState α) : Option α :=
  getAt st.history st.historyIndex

/-- The initial React state: `useState<string[]>([])`, `useState<number>(-1)`. -/
def initialState {α : Type} : HistoryState α := ⟨[], -1⟩

/-- `handleReset` (App.tsx lines 252-260): `setHistory([]); setHistoryIndex(-1)`. -/
def reset {α : Type} (_st : HistoryState α) : HistoryState α := ⟨[], -1⟩

/-- The success path of `processFile` (App.tsx lines 137-159): `handleReset()`
then `setHistory([base64String]); setHistoryIndex(0)`. -/
def load {α : Type} (s : α) : HistoryState α := ⟨[s], 0⟩

/-- `handleUndo` (App.tsx lines 262-266): decrement the index when
`historyIndex > 0`, otherwise do nothing. -/
def undo {α : Type} (st : HistoryState α) : HistoryState α :=
  if 0 < st.historyIndex then ⟨st.history, st.historyIndex - 1⟩ else st

/-- `handleRedo` (App.tsx lines 268-272): increment the index when
`historyIndex < history.length - 1`, otherwise do nothing. -/
def redo {α : Type} (st : HistoryState α) : HistoryState α :=
  if st.historyIndex < (st.history.length : Int) - 1 then
    ⟨st.history, st.historyIndex + 1⟩
  else st

/-- `const isUndoable = historyIndex > 0` (App.tsx line 274); when false the
undo button is disabled ("not undoable" is reported, not an error). -/
def isUndoable {α : Type} (st : HistoryState α) : Bool :=
  decide (0 < st.historyIndex)

/-- `const isRedoable = historyIndex < history.length - 1` (App.tsx line 275). -/
def isRedoable {α : Type} (st : HistoryState α) : Bool :=
  decide (st.historyIndex < (st.history.length : Int) - 1)

/-- The error outcomes of `handleGenerate`: the guard failure
`"Please upload an image first."` (no current image, i.e. `InvalidState`) and
the catch-all for a failed external call or a response with no usable image
(`ExternalEditFailure`). -/
inductive Err where
  | invalidState
  | externalEditFailure
deriving DecidableEq, Repr

/-- The history-relevant behaviour of `handleGenerate` (App.tsx lines
187-250).  The external model call is abstracted by `result : Option α`
(`some s` = a usable image `s` came back, possibly post-processed;
`none` = the call threw or returned no image part).  The code first reads
`currentImage = history[historyIndex]` and bails out if it is absent; on a
usable result it runs `history.slice(0, historyIndex + 1)`, pushes the new
snapshot and sets the index to the new last position; on failure it only
sets an error message, leaving `history` and `historyIndex` untouched. -/
def handleGenerate {α : Type} (st : HistoryState α) (result : Option α) :
    HistoryState α × Option Err :=
  match getAt st.history st.historyIndex with
  | none => (st, some Err.invalidState)
  | some _ =>
    match result with
    | none => (st, some Err.externalEditFailure)
    | some s =>
      let newHistory := st.history.take (st.historyIndex + 1).toNat ++ [s]
      (⟨newHistory, (newHistory.length : Int) - 1⟩, none)

/-- The state invariant claimed for the history: the cursor stays in
`[-1, length)` and is `-1` exactly when no image is loaded. -/
def Inv {α : Type} (st : HistoryState α) : Prop :=
  -1 ≤ st.historyIndex ∧ st.historyIndex < (st.history.length : Int) ∧
    (st.historyIndex = -1 ↔ st.history = [])

/-! ## Color conversion and chroma keying

JavaScript numbers are modelled by `ℚ`.  `hsl` is the body of `rgbToHsl`
after the three `/= 255` normalizations. -/

/-- Body of `rgbToHsl` (App.tsx lines 51-72) on already-normalized channels:
`max`/`min` of the three channels, `l = (max+min)/2`; achromatic case
returns hue `0`, saturation `0`; otherwise the saturation formula branches
on `l > 0.5` and the hue sector is chosen by the `switch (max)` statement
(first matching of `r`, `g`, `b`), finally `h /= 6` and `h * 360`. -/
def hsl (r g b : ℚ) : ℚ × ℚ × ℚ :=
  let mx := max r (max g b)
  let mn := min r (min g b)
  let l := (mx + mn) / 2
  if mx = mn then (0, 0, l)
  else
    let d := mx - mn
    let s := if 1/2 < l then d / (2 - mx - mn) else d / (mx + mn)
    let h :=
      if mx = r then (g - b) / d + (if g < b then 6 else 0)
      else if mx = g then (b - r) / d + 2
      else (r - g) / d + 4
    (h / 6 * 360, s, l)

/-- `rgbToHsl` (App.tsx lines 51-72): normalize the 0-255 integer channels
to `[0,1]` and convert. -/
def rgbToHsl (r g b : ℕ) : ℚ × ℚ × ℚ := hsl (r / 255) (g / 255) (b / 255)

/-- Mathematical `x mod 6` on rationals, used to state the specification's
hue formula `60 × ((g−b)/d mod 6)`. -/
def qmod6 (x : ℚ) : ℚ := x - 6 * ⌊x / 6⌋

/-- Modelled from the spec: the standard RGB→HSL conversion of §4.1 on
normalized channels — `lightness = (max+min)/2`; achromatic when
`max = min`; `saturation = d/(2−max−min)` when `lightness > 0.5` else
`d/(max+min)`; hue in degrees `60 × ((g−b)/d mod 6)` when red is max,
`60 × ((b−r)/d + 2)` when green is max, `60 × ((r−g)/d + 4)` when blue is
max. -/
def hslSpec (r g b : ℚ) : ℚ × ℚ × ℚ :=
  let mx := max r (max g b)
  let mn := min r (min g b)
  let l := (mx + mn) / 2
  if mx = mn then (0, 0, l)
  else
    let d := mx - mn
    let s := if 1/2 < l then d / (2 - mx - mn) else d / (mx + mn)
    let h :=
      if mx = r then 60 * qmod6 ((g - b) / d)
      else if mx = g then 60 * ((b - r) / d + 2)
      else 60 * ((r - g) / d + 4)
    (h, s, l)

/-- Modelled from the spec: `ToHSL` of §4.1 on 0-255 integer channels. -/
def toHSL_spec (r g b : ℕ) : ℚ × ℚ × ℚ := hslSpec (r / 255) (g / 255) (b / 255)

/-- The chroma-key thresholds.  The source hardcodes them as the local
constants `magentaHue`, `hueTolerance`, `minSaturation`, `minLightness`,
`maxLightness` of `makeMagentaTransparent` (App.tsx lines 102-106); the
spec's §4.2 `ChromaKeyConfig` names them as configuration fields. -/
structure ChromaKeyConfig where
  referenceHue : ℚ
  hueTolerance : ℚ
  minSaturation : ℚ
  minLightness : ℚ
  maxLightness : ℚ

/-- The per-pixel classification of `makeMagentaTransparent`'s loop body
(App.tsx lines 108-124), generalized over the threshold constants: convert
to HSL, take the circular hue distance `min(|h − ref|, 360 − |h − ref|)`,
and require the four threshold conditions of the `if`. -/
def isBackgroundCfg (cfg : ChromaKeyConfig) (r g b : ℕ) : Bool :=
  let h := (rgbToHsl r g b).1
  let s := (rgbToHsl r g b).2.1
  let l := (rgbToHsl r g b).2.2
  let hueDiff := |h - cfg.referenceHue|
  let hueDistance := min hueDiff (360 - hueDiff)
  decide (hueDistance ≤ cfg.hueTolerance) && decide (cfg.minSaturation ≤ s) &&
    decide (cfg.minLightness ≤ l) && decide (l ≤ cfg.maxLightness)

/-- The constants of App.tsx lines 102-106: reference hue 300°, tolerance
25°, minimum saturation 0.25, lightness in [0.15, 0.95]. -/
def magentaConfig : ChromaKeyConfig := ⟨300, 25, 1/4, 3/20, 19/20⟩

/-- The pixel classification exactly as in the source (hardcoded magenta
thresholds). -/
def isBackground (r g b : ℕ) : Bool := isBackgroundCfg magentaConfig r g b

/-- One RGBA pixel: four 8-bit channels of the canvas `ImageData.data`
array (`data[i]`, `data[i+1]`, `data[i+2]`, `data[i+3]`). -/
structure Pixel where
  r : ℕ
  g : ℕ
  b : ℕ
  a : ℕ
deriving DecidableEq, Repr

/-- The pixel loop of `makeMagentaTransparent` (App.tsx lines 108-127): for
every pixel, if it classifies as background set its alpha channel to `0`,
otherwise leave it untouched. -/
def applyChromaKey (buf : List Pixel) : List Pixel :=
  buf.map fun p => if isBackground p.r p.g p.b then { p with a := 0 } else p

/-! ## Helper lemmas -/

lemma getAt_eq_some {α : Type} {l : List α} {i : Int} {x : α}
    (h : getAt l i = some x) : 0 ≤ i ∧ i.toNat < l.length := by
  unfold getAt at h
  by_cases h0 : 0 ≤ i
  · rw [if_pos h0] at h
    refine ⟨h0, ?_⟩
    by_contra hlen
    rw [List.getElem?_eq_none (Nat.le_of_not_lt hlen)] at h
    cases h
  · rw [if_neg h0] at h
    cases h

lemma getAt_pos {α : Type} (l : List α) (i : Int) (h0 : 0 ≤ i)
    (h : i.toNat < l.length) : getAt l i = some l[i.toNat] := by
  unfold getAt
  rw [if_pos h0, List.getElem?_eq_getElem h]

lemma getAt_neg {α : Type} (l : List α) {i : Int} (h : i < 0) :
    getAt l i = none := by
  unfold getAt
  rw [if_neg (Int.not_le.mpr h)]

/-- The append path of `handleGenerate`: with the cursor in bounds and a
usable external result, the history is truncated to the cursor (inclusive),
the new snapshot is pushed, and the cursor moves to the new tail. -/
lemma handleGenerate_some {α : Type} (st : HistoryState α) (s : α)
    (h0 : 0 ≤ st.historyIndex) (h : st.historyIndex.toNat < st.history.length) :
    handleGenerate st (some s) =
      (⟨st.history.take (st.historyIndex.toNat + 1) ++ [s], st.historyIndex + 1⟩,
        none) := by
  unfold handleGenerate
  rw [getAt_pos st.history st.historyIndex h0 h]
  have htn : (st.historyIndex + 1).toNat = st.historyIndex.toNat + 1 := by omega
  have hlen : (st.history.take (st.historyIndex.toNat + 1) ++ [s]).length =
      st.historyIndex.toNat + 2 := by
    simp [List.length_take]
    omega
  simp only [htn, hlen]
  refine Prod.ext ?_ rfl
  refine congrArg₂ HistoryState.mk rfl ?_
  omega

/-- Both failure paths of `handleGenerate` leave the state untouched. -/
lemma handleGenerate_fst_none {α : Type} (st : HistoryState α) :
    handleGenerate st none =
      (st, some (if (getAt st.history st.historyIndex).isSome then
        Err.externalEditFailure else Err.invalidState)) := by
  unfold handleGenerate
  rcases hg : getAt st.history st.historyIndex with _ | x <;> simp [hg]

lemma handleGenerate_invalid {α : Type} (st : HistoryState α)
    (res : Option α) (h : st.historyIndex = -1) :
    handleGenerate st res = (st, some Err.invalidState) := by
  unfold handleGenerate
  rw [getAt_neg st.history (by omega)]

/-- Restatement of the invariant in terms of lengths, for `omega`. -/
lemma inv_iff_len {α : Type} (st : HistoryState α) :
    Inv st ↔ -1 ≤ st.historyIndex ∧ st.historyIndex < (st.history.length : Int) ∧
      (st.historyIndex = -1 ↔ st.history.length = 0) := by
  unfold Inv
  rw [List.length_eq_zero]

/-! ## Claims about the edit history -/

/-- C1: with the cursor at a valid position `≥ 0`, appending a snapshot
truncates the history to the first `currentIndex + 1` entries, appends the
snapshot as the new tail, and sets the cursor to the new last index; and
the concrete scenario Load(A), Append(B), Append(C), Undo, Undo, Append(D)
produces [A,B,C] at cursor 2, then cursor 0 showing A, then [A,D] at
cursor 1 (with A,B,C,D encoded as 0,1,2,3). -/
theorem append_truncates_and_appends :
    (∀ (α : Type) (st : HistoryState α) (s : α),
      0 ≤ st.historyIndex → st.historyIndex < (st.history.length : Int) →
        (handleGenerate st (some s)).1.history =
            st.history.take (st.historyIndex.toNat + 1) ++ [s] ∧
          (handleGenerate st (some s)).1.historyIndex = st.historyIndex + 1 ∧
          (handleGenerate st (some s)).1.historyIndex =
            ((handleGenerate st (some s)).1.history.length : Int) - 1 ∧
          (handleGenerate st (some s)).2 = none) ∧
      (handleGenerate (handleGenerate (load 0) (some 1)).1 (some 2)).1 =
        (⟨[0, 1, 2], 2⟩ : HistoryState ℕ) ∧
      undo (undo (⟨[0, 1, 2], 2⟩ : HistoryState ℕ)) = ⟨[0, 1, 2], 0⟩ ∧
      current (⟨[0, 1, 2], 0⟩ : HistoryState ℕ) = some 0 ∧
      (handleGenerate (⟨[0, 1, 2], 0⟩ : HistoryState ℕ) (some 3)).1 = ⟨[0, 3], 1⟩ := by
  refine ⟨?_, by decide, by decide, by decide, by decide⟩
  intro α st s h0 hlt
  rw [handleGenerate_some st s h0 (by omega)]
  refine ⟨rfl, rfl, ?_, rfl⟩
  simp [List.length_take]
  omega

/-- Witness for C1 at the state ([5], cursor 0) with snapshot 9. -/
theorem append_truncates_and_appends_witness :
    (handleGenerate (⟨[5], 0⟩ : HistoryState ℕ) (some 9)).1.history = [5, 9] ∧
      (handleGenerate (⟨[5], 0⟩ : HistoryState ℕ) (some 9)).1.historyIndex = 1 := by
  have h := append_truncates_and_appends.1 ℕ ⟨[5], 0⟩ 9 (by decide) (by decide)
  exact ⟨h.1, h.2.1⟩

/-- C5: the invariant `-1 ≤ currentIndex < length`, with `currentIndex = -1`
exactly in the empty state, holds initially and is preserved by Reset,
Load, Append (any outcome of `handleGenerate`), Undo and Redo. -/
theorem editHistory_invariant :
    (∀ α : Type, Inv (@initialState α)) ∧
      (∀ (α : Type) (st : HistoryState α), Inv st → Inv (reset st)) ∧
      (∀ (α : Type) (s : α), Inv (load s)) ∧
      (∀ (α : Type) (st : HistoryState α) (res : Option α),
        Inv st → Inv (handleGenerate st res).1) ∧
      (∀ (α : Type) (st : HistoryState α), Inv st → Inv (undo st)) ∧
      (∀ (α : Type) (st : HistoryState α), Inv st → Inv (redo st)) := by
  refine ⟨?_, ?_, ?_, ?_, ?_, ?_⟩
  · intro α
    rw [inv_iff_len]
    simp [initialState]
  · intro α st _
    rw [inv_iff_len]
    simp [reset]
  · intro α s
    rw [inv_iff_len]
    simp [load]
  · intro α st res hst
    rw [inv_iff_len] at hst ⊢
    rcases res with _ | s
    · rw [handleGenerate_fst_none]
      exact hst
    · rcases hg : getAt st.history st.historyIndex with _ | x
      · unfold handleGenerate
        rw [hg]
        exact hst
      · obtain ⟨h0, hlen⟩ := getAt_eq_some hg
        rw [handleGenerate_some st s h0 hlen]
        simp [List.length_take]
        omega
  · intro α st hst
    rw [inv_iff_len] at hst ⊢
    unfold undo
    by_cases h : 0 < st.historyIndex
    · rw [if_pos h]
      simp only []
      omega
    · rw [if_neg h]
      exact hst
  · intro α st hst
    rw [inv_iff_len] at hst ⊢
    unfold redo
    by_cases h : st.historyIndex < (st.history.length : Int) - 1
    · rw [if_pos h]
      simp only []
      omega
    · rw [if_neg h]
      exact hst

/-- Witness for C5: the invariant holds for ([4, 6], cursor 1) and is
preserved by an undo there. -/
theorem editHistory_invariant_witness :
    Inv (undo (⟨[4, 6], 1⟩ : HistoryState ℕ)) :=
  editHistory_invariant.2.2.2.2.1 ℕ ⟨[4, 6], 1⟩
    (by rw [inv_iff_len]; refine ⟨by decide, by decide, by decide⟩)

/-- C6: Undo decrements the cursor exactly when `currentIndex > 0` and is a
state-preserving no-op otherwise (the UI reports "not undoable" by
disabling the button); Redo increments exactly when
`currentIndex < length - 1` and is a no-op otherwise; neither ever touches
the snapshot sequence. -/
theorem undo_redo_boundary :
    ∀ (α : Type) (st : HistoryState α),
      (0 < st.historyIndex → undo st = ⟨st.history, st.historyIndex - 1⟩) ∧
        (st.historyIndex ≤ 0 → undo st = st ∧ isUndoable st = false) ∧
        (st.historyIndex < (st.history.length : Int) - 1 →
          redo st = ⟨st.history, st.historyIndex + 1⟩) ∧
        ((st.history.length : Int) - 1 ≤ st.historyIndex →
          redo st = st ∧ isRedoable st = false) ∧
        (undo st).history = st.history ∧ (redo st).history = st.history := by
  intro α st
  refine ⟨?_, ?_, ?_, ?_, ?_, ?_⟩
  · intro h
    unfold undo
    rw [if_pos h]
  · intro h
    unfold undo isUndoable
    rw [if_neg (by omega)]
    simp
    omega
  · intro h
    unfold redo
    rw [if_pos h]
  · intro h
    unfold redo isRedoable
    rw [if_neg (by omega)]
    simp
    omega
  · unfold undo
    by_cases h : 0 < st.historyIndex <;> simp [h]
  · unfold redo
    by_cases h : st.historyIndex < (st.history.length : Int) - 1 <;> simp [h]

/-- Witness for C6: at ([0, 1], cursor 1), undo moves to cursor 0, and at
cursor 0 a further undo is a no-op with the button disabled. -/
theorem undo_redo_boundary_witness :
    undo (⟨[0, 1], 1⟩ : HistoryState ℕ) = ⟨[0, 1], 0⟩ ∧
      (undo (⟨[0, 1], 0⟩ : HistoryState ℕ) = ⟨[0, 1], 0⟩ ∧
        isUndoable (⟨[0, 1], 0⟩ : HistoryState ℕ) = false) ∧
      redo (⟨[0, 1], 1⟩ : HistoryState ℕ) = ⟨[0, 1], 1⟩ ∧
        isRedoable (⟨[0, 1], 1⟩ : HistoryState ℕ) = false :=
  ⟨(undo_redo_boundary ℕ ⟨[0, 1], 1⟩).1 (by decide),
    (undo_redo_boundary ℕ ⟨[0, 1], 0⟩).2.1 (by decide),
    (undo_redo_boundary ℕ ⟨[0, 1], 1⟩).2.2.2.1 (by decide)⟩

/-- C7: appending with no base image loaded (`currentIndex = -1`) fails
with `InvalidState` and leaves the state exactly unchanged. -/
theorem append_requires_loaded :
    ∀ (α : Type) (st : HistoryState α) (s : α), st.historyIndex = -1 →
      handleGenerate st (some s) = (st, some Err.invalidState) := by
  intro α st s h
  exact handleGenerate_invalid st (some s) h

/-- Witness for C7 at the empty initial state with snapshot 7. -/
theorem append_requires_loaded_witness :
    handleGenerate (⟨[], -1⟩ : HistoryState ℕ) (some 7) =
      (⟨[], -1⟩, some Err.invalidState) :=
  append_requires_loaded ℕ ⟨[], -1⟩ 7 (by decide)

/-- C8: when the external call fails or returns no usable image, the
history sequence (hence its length and contents) and the cursor are exactly
as before the call, and an error is surfaced rather than a snapshot
appended. -/
theorem external_failure_preserves_state :
    ∀ (α : Type) (st : HistoryState α),
      (handleGenerate st none).1 = st ∧
        (handleGenerate st none).1.history = st.history ∧
        (handleGenerate st none).1.historyIndex = st.historyIndex ∧
        (handleGenerate st none).2.isSome = true := by
  intro α st
  rw [handleGenerate_fst_none]
  exact ⟨rfl, rfl, rfl, rfl⟩

/-- C9 counterexample: Reset is an EditHistory operation other than Append,
and at the one-snapshot state ([0], cursor 0) it changes the length of the
snapshot sequence (from 1 to 0). -/
theorem reset_changes_length :
    (reset (⟨[0], 0⟩ : HistoryState ℕ)).history.length ≠
      (⟨[0], (0 : Int)⟩ : HistoryState ℕ).history.length := by
  decide

/-- C9 amended: Undo and Redo never change the snapshot sequence; a failed
generate call never changes it; a successful Append either leaves it or
replaces it by its truncation-plus-new-tail; but Reset and Load also change
the length, by reinitializing the history to empty resp. to the single
loaded snapshot. -/
theorem length_changes_only_by_append_reset_load :
    (∀ (α : Type) (st : HistoryState α), (undo st).history = st.history) ∧
      (∀ (α : Type) (st : HistoryState α), (redo st).history = st.history) ∧
      (∀ (α : Type) (st : HistoryState α),
        (handleGenerate st none).1.history = st.history) ∧
      (∀ (α : Type) (st : HistoryState α) (s : α),
        (handleGenerate st (some s)).1.history = st.history ∨
          (handleGenerate st (some s)).1.history =
            st.history.take (st.historyIndex.toNat + 1) ++ [s]) ∧
      (∀ (α : Type) (st : HistoryState α), (reset st).history = []) ∧
      (∀ (α : Type) (s : α), (load s).history = [s]) := by
  refine ⟨?_, ?_, ?_, ?_, fun α st => rfl, fun α s => rfl⟩
  · intro α st
    unfold undo
    by_cases h : 0 < st.historyIndex <;> simp [h]
  · intro α st
    unfold redo
    by_cases h : st.historyIndex < (st.history.length : Int) - 1 <;> simp [h]
  · intro α st
    rw [handleGenerate_fst_none]
  · intro α st s
    rcases hg : getAt st.history st.historyIndex with _ | x
    · left
      unfold handleGenerate
      rw [hg]
    · right
      obtain ⟨h0, hlen⟩ := getAt_eq_some hg
      rw [handleGenerate_some st s h0 hlen]

/-! ## Color conversion lemmas -/

lemma qmod6_of_nonneg {x : ℚ} (h0 : 0 ≤ x) (h6 : x < 6) : qmod6 x = x := by
  unfold qmod6
  have hf : ⌊x / 6⌋ = 0 := by
    rw [Int.floor_eq_zero_iff]
    constructor
    · positivity
    · rw [div_lt_one (by norm_num)]
      simpa using h6
  rw [hf]
  ring

lemma qmod6_of_neg {x : ℚ} (h0 : -6 ≤ x) (hx : x < 0) : qmod6 x = x + 6 := by
  unfold qmod6
  have hf : ⌊x / 6⌋ = -1 := by
    rw [Int.floor_eq_iff]
    constructor
    · push_cast
      rw [le_div_iff₀ (by norm_num : (0:ℚ) < 6)]
      linarith
    · push_cast
      rw [div_lt_iff₀ (by norm_num : (0:ℚ) < 6)]
      linarith
  rw [hf]
  push_cast
  ring

/-- The source conversion agrees with the specification's formulation on
every normalized channel triple: the only difference is the source's
add-6-if-negative hue normalization versus the spec's `mod 6`. -/
lemma hsl_eq_hslSpec (r g b : ℚ) : hsl r g b = hslSpec r g b := by
  simp only [hsl, hslSpec]
  by_cases he : max r (max g b) = min r (min g b)
  · rw [if_pos he, if_pos he]
  · rw [if_neg he, if_neg he]
    have hmx_g : g ≤ max r (max g b) :=
      le_trans (le_max_left g b) (le_max_right r (max g b))
    have hmx_b : b ≤ max r (max g b) :=
      le_trans (le_max_right g b) (le_max_right r (max g b))
    have hmn_g : min r (min g b) ≤ g :=
      le_trans (min_le_right r (min g b)) (min_le_left g b)
    have hmn_b : min r (min g b) ≤ b :=
      le_trans (min_le_right r (min g b)) (min_le_right g b)
    have hle : min r (min g b) ≤ max r (max g b) :=
      le_trans (min_le_left r (min g b)) (le_max_left r (max g b))
    have hd : 0 < max r (max g b) - min r (min g b) :=
      sub_pos.mpr (lt_of_le_of_ne hle (Ne.symm he))
    refine Prod.ext ?_ rfl
    by_cases hr : max r (max g b) = r
    · rw [if_pos hr, if_pos hr]
      by_cases hgb : g < b
      · rw [if_pos hgb]
        have hx0 : (g - b) / (max r (max g b) - min r (min g b)) < 0 :=
          div_neg_of_neg_of_pos (by linarith) hd
        have hx1 : (-1 : ℚ) ≤ (g - b) / (max r (max g b) - min r (min g b)) := by
          rw [le_div_iff₀ hd]
          linarith
        rw [qmod6_of_neg (by linarith) hx0]
        ring
      · rw [if_neg hgb]
        have hx0 : 0 ≤ (g - b) / (max r (max g b) - min r (min g b)) :=
          div_nonneg (by linarith [not_lt.mp hgb]) hd.le
        have hx1 : (g - b) / (max r (max g b) - min r (min g b)) ≤ 1 := by
          rw [div_le_one hd]
          linarith
        rw [qmod6_of_nonneg hx0 (by linarith)]
        ring
    · rw [if_neg hr, if_neg hr]
      by_cases hg : max r (max g b) = g
      · rw [if_pos hg, if_pos hg]
        ring
      · rw [if_neg hg, if_neg hg]
        ring

/-- The hue produced by the source conversion always lies in `[0, 360)`. -/
lemma hsl_hue_range (r g b : ℚ) : 0 ≤ (hsl r g b).1 ∧ (hsl r g b).1 < 360 := by
  simp only [hsl]
  by_cases he : max r (max g b) = min r (min g b)
  · rw [if_pos he]
    norm_num
  · rw [if_neg he]
    have hmx_g : g ≤ max r (max g b) :=
      le_trans (le_max_left g b) (le_max_right r (max g b))
    have hmx_b : b ≤ max r (max g b) :=
      le_trans (le_max_right g b) (le_max_right r (max g b))
    have hmx_r : r ≤ max r (max g b) := le_max_left r (max g b)
    have hmn_g : min r (min g b) ≤ g :=
      le_trans (min_le_right r (min g b)) (min_le_left g b)
    have hmn_b : min r (min g b) ≤ b :=
      le_trans (min_le_right r (min g b)) (min_le_right g b)
    have hmn_r : min r (min g b) ≤ r := min_le_left r (min g b)
    have hle : min r (min g b) ≤ max r (max g b) :=
      le_trans (min_le_left r (min g b)) (le_max_left r (max g b))
    have hd : 0 < max r (max g b) - min r (min g b) :=
      sub_pos.mpr (lt_of_le_of_ne hle (Ne.symm he))
    by_cases hr : max r (max g b) = r
    · rw [if_pos hr]
      by_cases hgb : g < b
      · rw [if_pos hgb]
        have hx0 : (g - b) / (max r (max g b) - min r (min g b)) < 0 :=
          div_neg_of_neg_of_pos (by linarith) hd
        have hx1 : (-1 : ℚ) ≤ (g - b) / (max r (max g b) - min r (min g b)) := by
          rw [le_div_iff₀ hd]
          linarith
        constructor
        · show (0:ℚ) ≤ _
          nlinarith
        · show _ < (360:ℚ)
          nlinarith
      · rw [if_neg hgb]
        have hx0 : 0 ≤ (g - b) / (max r (max g b) - min r (min g b)) :=
          div_nonneg (by linarith [not_lt.mp hgb]) hd.le
        have hx1 : (g - b) / (max r (max g b) - min r (min g b)) ≤ 1 := by
          rw [div_le_one hd]
          linarith
        constructor
        · show (0:ℚ) ≤ _
          nlinarith
        · show _ < (360:ℚ)
          nlinarith
    · rw [if_neg hr]
      by_cases hg : max r (max g b) = g
      · rw [if_pos hg]
        have hx0 : (b - r) / (max r (max g b) - min r (min g b)) ≤ 1 := by
          rw [div_le_one hd]
          linarith
        have hx1 : (-1 : ℚ) ≤ (b - r) / (max r (max g b) - min r (min g b)) := by
          rw [le_div_iff₀ hd]
          linarith
        constructor
        · show (0:ℚ) ≤ _
          nlinarith
        · show _ < (360:ℚ)
          nlinarith
      · rw [if_neg hg]
        have hx0 : (r - g) / (max r (max g b) - min r (min g b)) ≤ 1 := by
          rw [div_le_one hd]
          linarith
        have hx1 : (-1 : ℚ) ≤ (r - g) / (max r (max g b) - min r (min g b)) := by
          rw [le_div_iff₀ hd]
          linarith
        constructor
        · show (0:ℚ) ≤ _
          nlinarith
        · show _ < (360:ℚ)
          nlinarith

/-- The magenta reference pixel (255, 0, 255) is classified as background. -/
lemma isBackground_magenta_pixel : isBackground 255 0 255 = true := by
  norm_num [isBackground, isBackgroundCfg, magentaConfig, rgbToHsl, hsl,
    max_def, min_def, abs]

/-- A dark gray pixel (10, 10, 10) is not classified as background. -/
lemma isBackground_gray_pixel : isBackground 10 10 10 = false := by
  norm_num [isBackground, isBackgroundCfg, magentaConfig, rgbToHsl, hsl,
    max_def, min_def, abs]

/-! ## Claims about chroma keying and color conversion -/

/-- C2: a pixel classifies as background iff all four threshold conditions
hold on its HSL value, with the hue distance taken circularly; in
particular the pixel (240, 0, 20), whose hue is 355°, matches reference
hue 5° with tolerance 15° (circular distance 10°) even though the linear
distance 350° exceeds the tolerance. -/
theorem isBackground_iff_thresholds :
    (∀ (cfg : ChromaKeyConfig) (r g b : ℕ),
        isBackgroundCfg cfg r g b = true ↔
          min |(rgbToHsl r g b).1 - cfg.referenceHue|
              (360 - |(rgbToHsl r g b).1 - cfg.referenceHue|) ≤ cfg.hueTolerance ∧
            (rgbToHsl r g b).2.1 ≥ cfg.minSaturation ∧
            (rgbToHsl r g b).2.2 ≥ cfg.minLightness ∧
            (rgbToHsl r g b).2.2 ≤ cfg.maxLightness) ∧
      (rgbToHsl 240 0 20).1 = 355 ∧
      isBackgroundCfg ⟨5, 15, 1/4, 3/20, 19/20⟩ 240 0 20 = true ∧
      ¬|(rgbToHsl 240 0 20).1 - 5| ≤ 15 := by
  refine ⟨?_, ?_, ?_, ?_⟩
  · intro cfg r g b
    simp only [isBackgroundCfg, Bool.and_eq_true, decide_eq_true_eq, ge_iff_le]
    tauto
  · norm_num [rgbToHsl, hsl, max_def, min_def]
  · norm_num [isBackgroundCfg, rgbToHsl, hsl, max_def, min_def, abs]
  · norm_num [rgbToHsl, hsl, max_def, min_def, abs]

/-- C3: `rgbToHsl` is a pure total function agreeing with the standard
RGB→HSL conversion of the spec on every 0-255 channel triple, its hue lies
in `[0, 360)`, and it takes the textbook reference values on pure red,
green, blue, white and black. -/
theorem rgbToHsl_standard :
    (∀ r g b : ℕ, r ≤ 255 → g ≤ 255 → b ≤ 255 →
        rgbToHsl r g b = toHSL_spec r g b) ∧
      (∀ r g b : ℕ, 0 ≤ (rgbToHsl r g b).1 ∧ (rgbToHsl r g b).1 < 360) ∧
      rgbToHsl 255 0 0 = (0, 1, 1/2) ∧
      rgbToHsl 0 255 0 = (120, 1, 1/2) ∧
      rgbToHsl 0 0 255 = (240, 1, 1/2) ∧
      rgbToHsl 255 255 255 = (0, 0, 1) ∧
      rgbToHsl 0 0 0 = (0, 0, 0) := by
  refine ⟨fun r g b _ _ _ => hsl_eq_hslSpec (r / 255) (g / 255) (b / 255),
    fun r g b => hsl_hue_range (r / 255) (g / 255) (b / 255), ?_, ?_, ?_, ?_, ?_⟩ <;>
    norm_num [rgbToHsl, hsl, max_def, min_def]

/-- Witness for C3 at the in-range triple (240, 0, 20). -/
theorem rgbToHsl_standard_witness :
    rgbToHsl 240 0 20 = toHSL_spec 240 0 20 :=
  rgbToHsl_standard.1 240 0 20 (by decide) (by decide) (by decide)

/-- C4: the chroma-key pass keeps the buffer length, maps every pixel
classified as background to the same pixel with alpha exactly 0 (RGB
unchanged), and leaves every other pixel byte-for-byte identical. -/
theorem applyChromaKey_pixelwise :
    ∀ (buf : List Pixel) (i : ℕ) (p : Pixel), buf[i]? = some p →
      (applyChromaKey buf).length = buf.length ∧
        (isBackground p.r p.g p.b = true →
          (applyChromaKey buf)[i]? = some ⟨p.r, p.g, p.b, 0⟩) ∧
        (isBackground p.r p.g p.b = false →
          (applyChromaKey buf)[i]? = some p) := by
  intro buf i p hp
  refine ⟨by simp [applyChromaKey], ?_, ?_⟩ <;> intro hb <;>
    · rw [applyChromaKey, List.getElem?_map, hp]
      rcases p with ⟨pr, pg, pb, pa⟩
      simp [hb]

/-- Witness for C4 on a two-pixel buffer: the magenta pixel keeps RGB and
gets alpha 0, the gray pixel is untouched. -/
theorem applyChromaKey_pixelwise_witness :
    (applyChromaKey [⟨255, 0, 255, 200⟩, ⟨10, 10, 10, 50⟩]).length = 2 ∧
      (applyChromaKey [⟨255, 0, 255, 200⟩, ⟨10, 10, 10, 50⟩])[0]? =
        some ⟨255, 0, 255, 0⟩ ∧
      (applyChromaKey [⟨255, 0, 255, 200⟩, ⟨10, 10, 10, 50⟩])[1]? =
        some ⟨10, 10, 10, 50⟩ := by
  have h0 := applyChromaKey_pixelwise [⟨255, 0, 255, 200⟩, ⟨10, 10, 10, 50⟩] 0
    ⟨255, 0, 255, 200⟩ (by decide)
  have h1 := applyChromaKey_pixelwise [⟨255, 0, 255, 200⟩, ⟨10, 10, 10, 50⟩] 1
    ⟨10, 10, 10, 50⟩ (by decide)
  exact ⟨h0.1, h0.2.1 isBackground_magenta_pixel, h1.2.2 isBackground_gray_pixel⟩

/-- C10: the chroma-key pass is idempotent — the classification reads only
the RGB channels, which the pass never changes, so a second pass zeroes
only alphas that are already zero. -/
theorem applyChromaKey_idempotent :
    ∀ buf : List Pixel, applyChromaKey (applyChromaKey buf) = applyChromaKey buf := by
  intro buf
  induction buf with
  | nil => rfl
  | cons p t ih =>
    simp only [applyChromaKey, List.map_cons] at ih ⊢
    refine congrArg₂ List.cons ?_ ih
    rcases p with ⟨pr, pg, pb, pa⟩
    by_cases hb : isBackground pr pg pb
    · simp [hb]
    · simp [hb]

end ImageCleanup
